import Mathlib

/-!
Shallow embedding of the Salesregister dashboard's data-processing core
(`src/app.py`): the loader/normalizer (`load_data`), the sidebar filter
pipeline (`filtered_df`), and the per-chart groupby/aggregate calls.

Tables are lists of rows; pandas `NaN`/`NaT` cells are `Option.none`;
currency amounts are `Rat` (pandas floats are used only for exact decimal
data here); a `resample('M')` month-end bucket is represented by its month
index `year * 12 + (month - 1)`, which is in bijection with the month-end
timestamp pandas uses as the bucket label.
-/

namespace SalesRegister

/-- A calendar date, as produced by `pd.to_datetime` (app.py line 52). -/
structure Date where
  year : Nat
  month : Nat
  day : Nat
deriving DecidableEq, Repr

/-- Lexicographic date comparison, as used by the `Posting_Date` range
filter (app.py line 113). -/
def Date.le (a b : Date) : Bool :=
  decide (a.year < b.year) ||
    (decide (a.year = b.year) &&
      (decide (a.month < b.month) ||
        (decide (a.month = b.month) && decide (a.day ≤ b.day))))

/-- Whitespace test for trimming, as `str.strip` strips whitespace. -/
def isWS (c : Char) : Bool := c.isWhitespace

/-- Strip leading and trailing whitespace from a character list (the
`str.strip()` of app.py line 78). -/
def trimChars (cs : List Char) : List Char :=
  ((cs.dropWhile isWS).reverse.dropWhile isWS).reverse

/-- Value of a decimal digit character, `none` otherwise. -/
def digitVal (c : Char) : Option Nat :=
  if c.isDigit then some (c.toNat - 48) else none

/-- Parse a nonempty all-digit character list as a natural number. -/
def digitsToNat (cs : List Char) : Option Nat :=
  if cs.isEmpty then none
  else cs.foldl (fun acc c =>
    match acc, digitVal c with
    | some n, some d => some (n * 10 + d)
    | _, _ => none) (some 0)

/-- Parse an unsigned decimal numeral (digits, optionally a `.` and more
digits), as accepted by `pd.to_numeric` for plain decimal notation. -/
def parseUnsignedDecimal (cs : List Char) : Option Rat :=
  match cs.splitOn '.' with
  | [ip] => (digitsToNat ip).map (fun n => (n : Rat))
  | [ip, fp] =>
    if ip.isEmpty && fp.isEmpty then none
    else
      match (if ip.isEmpty then some 0 else digitsToNat ip),
            (if fp.isEmpty then some 0 else digitsToNat fp) with
      | some ni, some nf => some ((ni : Rat) + (nf : Rat) / ((10 : Rat) ^ fp.length))
      | _, _ => none
  | _ => none

/-- Parse an optionally signed decimal numeral; `none` models the `NaN`
that `pd.to_numeric(errors='coerce')` produces on unparsable input
(app.py line 79). -/
def parseDecimal (cs : List Char) : Option Rat :=
  match cs with
  | '-' :: rest => (parseUnsignedDecimal rest).map (fun q => -q)
  | '+' :: rest => parseUnsignedDecimal rest
  | cs => parseUnsignedDecimal cs

/-- Remove every comma, as `str.replace(',', '')` does (app.py line 78). -/
def stripCommas (s : String) : String := ⟨s.data.filter (fun c => c ≠ ',')⟩

/-- The per-cell numeric coercion of app.py lines 78-79: drop thousands
separators, strip surrounding whitespace, parse as a decimal; `none` is
the `NaN` left for unparsable cells. -/
def coerceCell (s : String) : Option Rat :=
  parseDecimal (trimChars (stripCommas s).data)

/-- The full numeric pipeline for one cell including the `fillna(0)` of
app.py line 82: unparsable values become `0`. -/
def coerceNumeric (s : String) : Rat :=
  (coerceCell s).getD 0

/-- Gregorian leap-year test. -/
def isLeap (y : Nat) : Bool :=
  (y % 4 == 0 && y % 100 != 0) || y % 400 == 0

/-- Number of days in a month, used to validate parsed dates the way
`pd.to_datetime` does. -/
def daysInMonth (y m : Nat) : Nat :=
  if m = 2 then (if isLeap y then 29 else 28)
  else if m = 4 ∨ m = 6 ∨ m = 9 ∨ m = 11 then 30 else 31

/-- Two-digit years are widened the way the datetime parser behind
`pd.to_datetime` widens them (pivot at 68). -/
def expandYear (y digits : Nat) : Nat :=
  if digits ≤ 2 then (if y ≤ 68 then 2000 + y else 1900 + y) else y

/-- Day-first date parsing of `DD-MM-YY` / `DD-MM-YYYY` strings, the
formats named by the code comment at app.py line 51; invalid dates give
`none`, the `NaT` of `pd.to_datetime(errors='coerce', dayfirst=True)`. -/
def parseDate (s : String) : Option Date :=
  match (trimChars s.data).splitOn '-' with
  | [ds, ms, ys] =>
    match digitsToNat ds, digitsToNat ms, digitsToNat ys with
    | some d, some m, some y0 =>
      let y := expandYear y0 ys.length
      if 1 ≤ m ∧ m ≤ 12 ∧ 1 ≤ d ∧ d ≤ daysInMonth y m then some ⟨y, m, d⟩ else none
    | _, _, _ => none
  | _ => none

/-- English month names, for `dt.month_name()` (app.py line 62). -/
def monthNames : List String :=
  ["January", "February", "March", "April", "May", "June", "July",
   "August", "September", "October", "November", "December"]

/-- `dt.month_name()` of a date. -/
def monthNameOf (m : Nat) : String := monthNames.getD (m - 1) ""

/-- Day-of-week index (0 = Sunday) by Sakamoto's method, for
`dt.day_name()` (app.py line 63). -/
def dayOfWeekIndex (d : Date) : Nat :=
  let t : List Nat := [0, 3, 2, 5, 0, 3, 5, 1, 4, 6, 2, 4]
  let y := if d.month < 3 then d.year - 1 else d.year
  (y + y / 4 - y / 100 + y / 400 + t.getD (d.month - 1) 0 + d.day) % 7

/-- English day names indexed from Sunday. -/
def dayNames : List String :=
  ["Sunday", "Monday", "Tuesday", "Wednesday", "Thursday", "Friday", "Saturday"]

/-- `dt.day_name()` of a date. -/
def dayNameOf (d : Date) : String := dayNames.getD (dayOfWeekIndex d) ""

/-- `'Q{x}'` quarter label derived from the month
(app.py line 64: `dt.quarter.apply(lambda x: f'Q\x7bx\x7d')`). -/
def quarterOf (m : Nat) : String := "Q" ++ toString ((m - 1) / 3 + 1)

/-- One row of the source CSV restricted to the fields the verified
claims touch; every cell is the raw string read from the file. -/
structure RawRow where
  posting_date : String
  final_line_amount : String
  quantity : String
  unit_price : String
  region : String
  product_group : String
  sales_channel : String
  customer_name : String
  document_no : String
deriving DecidableEq, Repr

/-- A row mid-normalization: dates and numerics have been coerced and may
still be missing (`none` = `NaT`/`NaN`). -/
structure StagedRow where
  posting_date : Option Date
  final_line_amount : Option Rat
  quantity : Option Rat
  unit_price : Option Rat
  region : String
  product_group : String
  sales_channel : String
  customer_name : String
  document_no : String
deriving DecidableEq, Repr

/-- Column-wise coercion of one raw row: `pd.to_datetime(errors='coerce',
dayfirst=True)` on `Posting_Date` (app.py line 52) and the numeric
coercion of lines 78-79 on the declared numeric columns. -/
def coerceRaw (raw : RawRow) : StagedRow :=
  { posting_date := parseDate raw.posting_date
    final_line_amount := coerceCell raw.final_line_amount
    quantity := coerceCell raw.quantity
    unit_price := coerceCell raw.unit_price
    region := raw.region
    product_group := raw.product_group
    sales_channel := raw.sales_channel
    customer_name := raw.customer_name
    document_no := raw.document_no }

/-- The `fillna(0)` of app.py line 82 applied to one staged row. -/
def fillnaRow (r : StagedRow) : StagedRow :=
  { r with
    final_line_amount := some (r.final_line_amount.getD 0)
    quantity := some (r.quantity.getD 0)
    unit_price := some (r.unit_price.getD 0) }

/-- The loader pipeline of `load_data` up to and including `fillna`:
coerce columns, drop rows whose `Posting_Date` failed to parse
(`dropna(subset=['Posting_Date'])`, app.py line 55), then zero-fill the
numeric `NaN`s (line 82). -/
def load_stage (src : List RawRow) : List StagedRow :=
  ((src.map coerceRaw).filter (fun r => r.posting_date.isSome)).map fillnaRow

/-- A fully normalized row with the derived columns of app.py
lines 58-64. -/
structure Row where
  posting_date : Date
  final_line_amount : Rat
  quantity : Rat
  unit_price : Rat
  region : String
  product_group : String
  sales_channel : String
  customer_name : String
  document_no : String
  sale_over_1000 : Bool
  year : Nat
  month_name : String
  day_of_week : String
  quarter : String
deriving DecidableEq, Repr

/-- Turn a staged row (whose date and numerics are known present after
`load_stage`) into a normalized row, adding the derived columns
`Sale_Over_1000`, `Year`, `Month`, `Day_of_Week`, `Quarter`
(app.py lines 58-64). -/
def finishRow (r : StagedRow) : Row :=
  let d := r.posting_date.getD ⟨1970, 1, 1⟩
  let amt := r.final_line_amount.getD 0
  { posting_date := d
    final_line_amount := amt
    quantity := r.quantity.getD 0
    unit_price := r.unit_price.getD 0
    region := r.region
    product_group := r.product_group
    sales_channel := r.sales_channel
    customer_name := r.customer_name
    document_no := r.document_no
    sale_over_1000 := decide (amt > 1000)
    year := d.year
    month_name := monthNameOf d.month
    day_of_week := dayNameOf d
    quarter := quarterOf d.month }

/-- `load_data` (app.py lines 14-84) restricted to the modelled columns. -/
def load_data (src : List RawRow) : List Row :=
  (load_stage src).map finishRow

/-- The sidebar filter criteria (app.py lines 103-145). Categorical
multiselect widgets hand back a list of selections where the sentinel
`"All"` means "no restriction"; the date and amount ranges are `none`
when not applied (incomplete date pick, amount column unavailable). -/
structure Criteria where
  dateRange : Option (Date × Date)
  regions : List String
  productGroups : List String
  salesChannels : List String
  amountRange : Option (Rat × Rat)

/-- Inclusive `Posting_Date` range predicate (app.py line 113). -/
def dateFilterPred (s e : Date) (r : Row) : Bool :=
  Date.le s r.posting_date && Date.le r.posting_date e

/-- `.isin(selected)` membership predicate (app.py lines 122, 127, 132). -/
def isinPred (vals : List String) (f : Row → String) (r : Row) : Bool :=
  vals.contains (f r)

/-- Inclusive `Final_Line_Amount` range predicate (app.py line 145). -/
def amountFilterPred (lo hi : Rat) (r : Row) : Bool :=
  decide (lo ≤ r.final_line_amount) && decide (r.final_line_amount ≤ hi)

/-- The sequential construction of `filtered_df` (app.py lines 111-145):
date range, then each categorical `.isin` filter guarded by its
`'All' not in selected` test, then the amount slider range. -/
def applyFilters (t : List Row) (c : Criteria) : List Row :=
  let t1 := match c.dateRange with
    | some (s, e) => t.filter (dateFilterPred s e)
    | none => t
  let t2 := if c.regions.contains "All" then t1
    else t1.filter (isinPred c.regions (fun r => r.region))
  let t3 := if c.productGroups.contains "All" then t2
    else t2.filter (isinPred c.productGroups (fun r => r.product_group))
  let t4 := if c.salesChannels.contains "All" then t3
    else t3.filter (isinPred c.salesChannels (fun r => r.sales_channel))
  match c.amountRange with
  | some (lo, hi) => t4.filter (amountFilterPred lo hi)
  | none => t4

/-- The row predicates the criteria activate, in the order the code
applies them. -/
def criteriaPreds (c : Criteria) : List (Row → Bool) :=
  (match c.dateRange with | some (s, e) => [dateFilterPred s e] | none => []) ++
  (if c.regions.contains "All" then []
    else [isinPred c.regions (fun r => r.region)]) ++
  (if c.productGroups.contains "All" then []
    else [isinPred c.productGroups (fun r => r.product_group)]) ++
  (if c.salesChannels.contains "All" then []
    else [isinPred c.salesChannels (fun r => r.sales_channel)]) ++
  (match c.amountRange with | some (lo, hi) => [amountFilterPred lo hi] | none => [])

/-- Apply a list of row predicates one after the other, each narrowing
the table, as the sequential reassignments of `filtered_df` do. -/
def applySeq (t : List Row) (ps : List (Row → Bool)) : List Row :=
  ps.foldl (fun acc p => acc.filter p) t

/-- A row satisfies all the active filter criteria. -/
def rowMatches (c : Criteria) (r : Row) : Bool :=
  (criteriaPreds c).all (fun p => p r)

/-- The reducers the charts use (`sum`, `mean`, `count`, `nunique`). -/
inductive Reducer
  | rsum
  | rmean
  | rcount
  | rcountDistinct
deriving DecidableEq, Repr

/-- Apply a reducer to the metric values of one group. -/
def reduceVals : Reducer → List Rat → Rat
  | .rsum, vs => vs.sum
  | .rmean, vs => vs.sum / (vs.length : Rat)
  | .rcount, vs => (vs.length : Rat)
  | .rcountDistinct, vs => (vs.dedup.length : Rat)

/-- Structural lexicographic comparison of character lists. -/
def charListLe : List Char → List Char → Bool
  | [], _ => true
  | _ :: _, [] => false
  | a :: as, b :: bs => if a < b then true else if b < a then false else charListLe as bs

/-- Lexicographic string comparison, the sort order pandas uses for
string group keys. -/
def strLeB (a b : String) : Bool := charListLe a.data b.data

/-- The distinct group keys in pandas `groupby` order: `groupby` with the
default `sort=True` emits groups sorted by key. -/
def groupKeys (t : List Row) (key : Row → String) : List String :=
  List.insertionSort (fun a b => strLeB a b = true) ((t.map key).dedup)

/-- `df.groupby(key)[metric].agg(red)`: one `(group key, reduced value)`
pair per distinct key, keys sorted. -/
def groupAgg (t : List Row) (key : Row → String) (metric : Row → Rat)
    (red : Reducer) : List (String × Rat) :=
  (groupKeys t key).map
    (fun k => (k, reduceVals red ((t.filter (fun r => key r == k)).map metric)))

/-- `df.groupby(key)[metric].sum()`. -/
def groupbySum (t : List Row) (key : Row → String) (metric : Row → Rat) :
    List (String × Rat) :=
  groupAgg t key metric .rsum

/-- `Series.nlargest(n)` with the default `keep='first'`: a stable
descending sort by value followed by truncation to `n` entries, so ties
keep the earlier entry of the series. -/
def nlargest (n : Nat) (gs : List (String × Rat)) : List (String × Rat) :=
  (List.insertionSort (fun a b => b.2 ≤ a.2) gs).take n

/-- The generic aggregation contract: groupby, reduce, optional top-N
truncation. -/
def aggregate (t : List Row) (key : Row → String) (metric : Row → Rat)
    (red : Reducer) (topN : Option Nat) : List (String × Rat) :=
  match topN with
  | none => groupAgg t key metric red
  | some n => nlargest n (groupAgg t key metric red)

/-- `product_sales` (app.py line 195):
`groupby('Product_Group')['Final_Line_Amount'].sum().nlargest(10)`. -/
def product_sales (t : List Row) : List (String × Rat) :=
  nlargest 10 (groupbySum t (fun r => r.product_group) (fun r => r.final_line_amount))

/-- `top_customers` (app.py line 238):
`groupby('Customer_Name')['Final_Line_Amount'].sum().nlargest(15)`. -/
def top_customers (t : List Row) : List (String × Rat) :=
  nlargest 15 (groupbySum t (fun r => r.customer_name) (fun r => r.final_line_amount))

/-- The canonical weekday order declared at app.py line 382. -/
def day_of_week_order : List String :=
  ["Monday", "Tuesday", "Wednesday", "Thursday", "Friday", "Saturday", "Sunday"]

/-- `daily_sales` (app.py line 383):
`groupby('Day_of_Week')['Final_Line_Amount'].sum().reindex(day_of_week_order)`.
`reindex` conforms the summed series to all seven labels, leaving `none`
(`NaN`) at weekdays absent from the table. -/
def daily_sales (t : List Row) : List (String × Option Rat) :=
  day_of_week_order.map
    (fun k => (k, (groupbySum t (fun r => r.day_of_week) (fun r => r.final_line_amount)).lookup k))

/-- Sum of `Final_Line_Amount` over the rows of one weekday. -/
def daySum (t : List Row) (k : String) : Rat :=
  ((t.filter (fun r => r.day_of_week == k)).map (fun r => r.final_line_amount)).sum

/-- The canonical quarter order declared at app.py line 366. -/
def quarter_order : List String := ["Q1", "Q2", "Q3", "Q4"]

/-- Position of a quarter label in the categorical order; labels outside
the declared categories sort last, as pandas sorts their `NaN` codes. -/
def quarterIdx (q : String) : Nat := quarter_order.indexOf q

/-- `quarterly_sales` (app.py lines 364-368): groupby-sum over `Quarter`,
then `sort_values` on the ordered categorical `['Q1','Q2','Q3','Q4']`. -/
def quarterly_sales (t : List Row) : List (String × Rat) :=
  List.insertionSort (fun a b => quarterIdx a.1 ≤ quarterIdx b.1)
    (groupbySum t (fun r => r.quarter) (fun r => r.final_line_amount))

/-- Month-end bucket index of a date: `resample('M')` buckets rows by
calendar month, labelling each bucket with the month's end. -/
def monthIndex (d : Date) : Nat := d.year * 12 + (d.month - 1)

/-- Sum of `Final_Line_Amount` over the rows of one month bucket. -/
def monthSum (t : List Row) (m : Nat) : Rat :=
  ((t.filter (fun r => monthIndex r.posting_date == m)).map
    (fun r => r.final_line_amount)).sum

/-- `monthly_sales` (app.py line 352):
`set_index('Posting_Date').resample('M')['Final_Line_Amount'].sum()`.
`resample` emits one bucket per calendar month from the earliest to the
latest date present — months with no rows included, summed to `0`. -/
def monthly_sales (t : List Row) : List (Nat × Rat) :=
  match t.map (fun r => monthIndex r.posting_date) with
  | [] => []
  | i :: is =>
    let lo := is.foldl Nat.min i
    let hi := is.foldl Nat.max i
    (List.range' lo (hi + 1 - lo)).map (fun m => (m, monthSum t m))

/-- `total_transactions` (app.py line 176): `df['Document No.'].nunique()`. -/
def total_transactions (t : List Row) : Nat :=
  (t.map (fun r => r.document_no)).dedup.length

/-- `sales_over_1000` (app.py line 181): number of rows whose
`Sale_Over_1000` flag is set. -/
def sales_over_1000 (t : List Row) : Nat :=
  (t.filter (fun r => r.sale_over_1000)).length

/-- `percentage_over_1000` (app.py line 186), including its
`if total_transactions > 0 else 0` guard. -/
def percentage_over_1000 (t : List Row) : Rat :=
  if total_transactions t > 0 then
    (sales_over_1000 t : Rat) / (total_transactions t : Rat) * 100
  else 0

/-- A neutral normalized row used to build concrete test tables. -/
def baseRow : Row :=
  { posting_date := ⟨2024, 1, 1⟩, final_line_amount := 0, quantity := 0, unit_price := 0,
    region := "North", product_group := "A", sales_channel := "Retail",
    customer_name := "C", document_no := "D1", sale_over_1000 := false,
    year := 2024, month_name := "January", day_of_week := "Monday", quarter := "Q1" }

/-- A table whose rows fall only on Monday and Wednesday. -/
def exMonWed : List Row :=
  [ { baseRow with day_of_week := "Monday", final_line_amount := 100 },
    { baseRow with day_of_week := "Wednesday", final_line_amount := 200 } ]

/-- A row posted in January 2024. -/
def rowJan : Row := { baseRow with posting_date := ⟨2024, 1, 5⟩, final_line_amount := 100 }

/-- A row posted in March 2024. -/
def rowMar : Row := { baseRow with posting_date := ⟨2024, 3, 6⟩, final_line_amount := 200 }

/-- A table with rows only in January and March 2024 (February has no
rows). -/
def exJanMar : List Row := [rowJan, rowMar]

/-- A table whose rows fall only in Q3 and Q1. -/
def exQuarters : List Row :=
  [ { baseRow with quarter := "Q3", final_line_amount := 300 },
    { baseRow with quarter := "Q1", final_line_amount := 100 } ]

/-- A table with four product groups and tied sums (A and C tie at 5,
B and D tie at 7). -/
def exTies : List Row :=
  [ { baseRow with product_group := "A", final_line_amount := 5 },
    { baseRow with product_group := "B", final_line_amount := 7 },
    { baseRow with product_group := "C", final_line_amount := 5 },
    { baseRow with product_group := "D", final_line_amount := 7 } ]

/-- The three-row scenario table of the specification. -/
def exScenario : List Row :=
  [ { baseRow with
      posting_date := ⟨2024, 1, 5⟩
      final_line_amount := 500
      region := "North"
      document_no := "D1" },
    { baseRow with
      posting_date := ⟨2024, 1, 20⟩
      final_line_amount := 1500
      region := "North"
      document_no := "D2"
      sale_over_1000 := true },
    { baseRow with
      posting_date := ⟨2024, 2, 1⟩
      final_line_amount := 800
      region := "South"
      document_no := "D3" } ]

/-- Concrete criteria: a January 2024 date range plus an amount range;
all categorical selections left at `"All"`. -/
def exCriteria : Criteria :=
  { dateRange := some (⟨2024, 1, 1⟩, ⟨2024, 1, 31⟩), regions := ["All"],
    productGroups := ["All"], salesChannels := ["All"], amountRange := some (0, 2000) }

/-- Criteria imposing no restriction at all. -/
def exCriteriaAll : Criteria :=
  { dateRange := none, regions := ["All"], productGroups := ["All"],
    salesChannels := ["All"], amountRange := none }

/-- Criteria restricting the region to `"North"` only. -/
def exCriteriaNorth : Criteria :=
  { dateRange := none, regions := ["North"], productGroups := ["All"],
    salesChannels := ["All"], amountRange := none }

/-- A raw CSV row with a parsable day-first date, a thousands-separated
amount, and an unparsable numeric cell. -/
def rawEx : RawRow :=
  { posting_date := "05-01-2024", final_line_amount := "1,234.50", quantity := "2",
    unit_price := "N/A", region := "North", product_group := "A",
    sales_channel := "Retail", customer_name := "C", document_no := "D1" }

/-- The staged row the loader produces from `rawEx`. -/
def stagedEx : StagedRow := fillnaRow (coerceRaw rawEx)

/-! ### Helper lemmas -/

/-- `applySeq` over a predicate list is a single filter by their
conjunction. -/
theorem applySeq_eq_filter (t : List Row) (ps : List (Row → Bool)) :
    applySeq t ps = t.filter (fun r => ps.all (fun p => p r)) := by
  induction ps generalizing t with
  | nil => simp [applySeq]
  | cons p ps ih =>
    show applySeq (t.filter p) ps = _
    rw [ih, List.filter_filter]
    exact List.filter_congr (fun r _ => by simp [Bool.and_comm])

/-- The sequential filter pipeline agrees with `applySeq` over the
activated predicates. -/
theorem applyFilters_eq_applySeq (t : List Row) (c : Criteria) :
    applyFilters t c = applySeq t (criteriaPreds c) := by
  obtain ⟨dr, rg, pg, sc, ar⟩ := c
  rcases dr with _ | ⟨s, e⟩ <;> rcases ar with _ | ⟨lo, hi⟩ <;>
    by_cases h1 : "All" ∈ rg <;> by_cases h2 : "All" ∈ pg <;>
    by_cases h3 : "All" ∈ sc <;>
    simp [applyFilters, criteriaPreds, applySeq, h1, h2, h3]

/-- `applyFilters` is a single filter by `rowMatches`. -/
theorem applyFilters_eq_filter (t : List Row) (c : Criteria) :
    applyFilters t c = t.filter (rowMatches c) := by
  rw [applyFilters_eq_applySeq, applySeq_eq_filter]; rfl

/-- `List.all` is invariant under permutation of the predicate list. -/
theorem all_perm_invariant {ps qs : List (Row → Bool)} (h : ps.Perm qs) (r : Row) :
    ps.all (fun p => p r) = qs.all (fun p => p r) := by
  induction h with
  | nil => rfl
  | cons p _ ih => simp [List.all_cons, ih]
  | swap p q l => simp [List.all_cons, ← Bool.and_assoc, Bool.and_comm]
  | trans _ _ ih1 ih2 => exact ih1.trans ih2

/-! ### Claims -/

/-- C9: `aggregate` applied to an empty table returns an empty sequence
for every group key, metric, reducer and optional top-N; it is a total
function, so emptiness is a normal outcome and never an error. -/
theorem aggregate_empty_safe (key : Row → String) (metric : Row → Rat)
    (red : Reducer) (topN : Option Nat) :
    aggregate [] key metric red topN = [] := by
  cases topN <;>
    simp [aggregate, nlargest, groupAgg, groupKeys, List.take_nil]

/-- C10: the percentage of transactions over 1000 never divides by zero:
the distinct-document count is zero exactly on the empty table, the
percentage is defined to be `0` there, and on any nonempty table the
divisor is positive and the percentage equals
`sales_over_1000 / total_transactions * 100`. -/
theorem percentage_over_1000_safe (t : List Row) :
    (total_transactions t = 0 ↔ t = []) ∧
    (t = [] → percentage_over_1000 t = 0) ∧
    (t ≠ [] → 0 < total_transactions t ∧
      percentage_over_1000 t =
        (sales_over_1000 t : Rat) / (total_transactions t : Rat) * 100) := by
  have h0 : total_transactions t = 0 ↔ t = [] := by
    unfold total_transactions
    rw [List.length_eq_zero, List.dedup_eq_nil, List.map_eq_nil_iff]
  refine ⟨h0, ?_, ?_⟩
  · intro ht; subst ht; rfl
  · intro ht
    have hpos : 0 < total_transactions t :=
      Nat.pos_of_ne_zero (fun hz => ht (h0.mp hz))
    exact ⟨hpos, by unfold percentage_over_1000; rw [if_pos hpos]⟩

/-- Witness for C10 at the concrete scenario table. -/
theorem percentage_over_1000_safe_witness :
    0 < total_transactions exScenario ∧
    percentage_over_1000 exScenario =
      (sales_over_1000 exScenario : Rat) / (total_transactions exScenario : Rat) * 100 :=
  (percentage_over_1000_safe exScenario).2.2 (by decide)

/-- C5: the loader's numeric coercion strips thousands separators and
surrounding whitespace and parses a decimal numeral; `"1,234.50"` parses
to `1234.50`, `"N/A"` parses to `0`, and any unparsable cell becomes
`0`. -/
theorem numeric_coercion_spec :
    coerceNumeric "1,234.50" = 1234.5 ∧
    coerceNumeric "N/A" = 0 ∧
    (∀ s : String, coerceCell s = none → coerceNumeric s = 0) := by
  refine ⟨by with_unfolding_all rfl, by rfl, ?_⟩
  intro s h
  unfold coerceNumeric
  rw [h]
  rfl

/-- Witness for C5's unparsable-cell clause at a concrete string. -/
theorem numeric_coercion_spec_witness : coerceNumeric "abc" = 0 :=
  numeric_coercion_spec.2.2 "abc" (by rfl)

/-- C6: every row surviving the loader's normalization has a present
(non-`NaT`) posting date — rows with unparsable dates having been
dropped — and a present (non-`NaN`) value in every declared numeric
column, numeric parse failures having been zero-filled. -/
theorem load_invariant (src : List RawRow) (r : StagedRow) (h : r ∈ load_stage src) :
    r.posting_date.isSome ∧ r.final_line_amount.isSome ∧
    r.quantity.isSome ∧ r.unit_price.isSome := by
  unfold load_stage at h
  rw [List.mem_map] at h
  obtain ⟨s, hs, rfl⟩ := h
  rw [List.mem_filter] at hs
  exact ⟨hs.2, rfl, rfl, rfl⟩

/-- Witness for C6 at a concrete one-row source file. -/
theorem load_invariant_witness :
    stagedEx.posting_date.isSome ∧ stagedEx.final_line_amount.isSome ∧
    stagedEx.quantity.isSome ∧ stagedEx.unit_price.isSome :=
  load_invariant [rawEx] stagedEx (List.mem_singleton_self stagedEx)

/-- C3: applying the filter criteria's predicates in any permutation of
the code's order produces exactly the `filtered_df` the code builds:
filtering is order-insensitive AND-composition. -/
theorem filters_order_insensitive (t : List Row) (c : Criteria)
    (ps : List (Row → Bool)) (h : (criteriaPreds c).Perm ps) :
    applySeq t ps = applyFilters t c := by
  rw [applyFilters_eq_applySeq, applySeq_eq_filter, applySeq_eq_filter]
  exact List.filter_congr (fun r _ => (all_perm_invariant h r).symm)

/-- Witness for C3: swapping the date and amount filters on a concrete
table and criteria. -/
theorem filters_order_insensitive_witness :
    applySeq exScenario
      [amountFilterPred 0 2000, dateFilterPred ⟨2024, 1, 1⟩ ⟨2024, 1, 31⟩] =
      applyFilters exScenario exCriteria :=
  filters_order_insensitive exScenario exCriteria _ (List.Perm.swap _ _ _)

/-- C4: filtering narrows: the filtered table is a sublist of the input;
appending one more predicate to the pipeline never increases the row
count; and criteria that are pointwise stricter (smaller include-sets,
narrower ranges) never produce more rows. -/
theorem filtering_narrows (t : List Row) (c : Criteria) :
    (applyFilters t c).Sublist t ∧
    (∀ (ps : List (Row → Bool)) (q : Row → Bool),
      (applySeq t (ps ++ [q])).length ≤ (applySeq t ps).length) ∧
    (∀ c' : Criteria, (∀ r : Row, rowMatches c' r = true → rowMatches c r = true) →
      (applyFilters t c').length ≤ (applyFilters t c).length) := by
  refine ⟨?_, ?_, ?_⟩
  · rw [applyFilters_eq_filter]; exact List.filter_sublist t
  · intro ps q
    have hap : applySeq t (ps ++ [q]) = (applySeq t ps).filter q := by
      simp [applySeq, List.foldl_append]
    rw [hap]
    exact List.length_filter_le q (applySeq t ps)
  · intro c' h
    rw [applyFilters_eq_filter, applyFilters_eq_filter,
      ← List.countP_eq_length_filter, ← List.countP_eq_length_filter]
    exact List.countP_mono_left (fun r _ hm => h r hm)

/-- Witness for C4: restricting the region from `"All"` to `"North"` on
the concrete scenario table does not increase the row count. -/
theorem filtering_narrows_witness :
    (applyFilters exScenario exCriteriaAll).Sublist exScenario ∧
    (applyFilters exScenario exCriteriaNorth).length ≤
      (applyFilters exScenario exCriteriaAll).length :=
  ⟨(filtering_narrows exScenario exCriteriaAll).1,
   (filtering_narrows exScenario exCriteriaAll).2.2 exCriteriaNorth
     (fun _ _ => rfl)⟩

/-- Looking a key up in a keyed map built over a key list. -/
theorem lookup_keyed_map (ks : List String) (f : String → Rat) (a : String) :
    (ks.map (fun k => (k, f k))).lookup a = if a ∈ ks then some (f a) else none := by
  induction ks with
  | nil => rfl
  | cons k ks ih =>
    by_cases h : a = k
    · subst h; simp [List.lookup]
    · have hbeq : (a == k) = false := beq_eq_false_iff_ne.mpr h
      simp [List.lookup, hbeq, ih, h]

/-- Membership in the sorted distinct group keys is membership among the
mapped key values. -/
theorem mem_groupKeys {t : List Row} {key : Row → String} {a : String} :
    a ∈ groupKeys t key ↔ a ∈ t.map key := by
  unfold groupKeys
  rw [List.mem_insertionSort, List.mem_dedup]

/-- C1 (corrected): the day-of-week aggregation `reindex`es the summed
series on the full canonical `Monday…Sunday` list, so its keys are
always all seven weekdays in canonical order, a weekday's value is
present (`some`) exactly when the weekday occurs in the table — absent
weekdays are `NaN`-filled rather than omitted — and each present value
is that weekday's sum. -/
theorem daily_sales_reindexed (t : List Row) :
    (daily_sales t).map Prod.fst = day_of_week_order ∧
    (∀ p ∈ daily_sales t, (p.2.isSome ↔ p.1 ∈ t.map (fun r => r.day_of_week))) ∧
    (∀ p ∈ daily_sales t, ∀ v : Rat, p.2 = some v → v = daySum t p.1) := by
  have hkey : ∀ k : String,
      (groupbySum t (fun r => r.day_of_week) (fun r => r.final_line_amount)).lookup k =
        if k ∈ groupKeys t (fun r => r.day_of_week) then some (daySum t k) else none :=
    fun k => lookup_keyed_map (groupKeys t (fun r => r.day_of_week)) _ k
  refine ⟨?_, ?_, ?_⟩
  · rw [daily_sales, List.map_map]
    exact List.map_id _
  · intro p hp
    rw [daily_sales, List.mem_map] at hp
    obtain ⟨k, _, rfl⟩ := hp
    rw [hkey k]
    by_cases hm : k ∈ groupKeys t (fun r => r.day_of_week)
    · simp [hm, mem_groupKeys.mp hm]
    · have hnm : k ∉ t.map (fun r => r.day_of_week) := fun h => hm (mem_groupKeys.mpr h)
      rw [List.mem_map] at hnm
      push_neg at hnm
      simp [hm]
      exact fun x hx => hnm x hx
  · intro p hp v hv
    rw [daily_sales, List.mem_map] at hp
    obtain ⟨k, _, rfl⟩ := hp
    rw [hkey k] at hv
    by_cases hm : k ∈ groupKeys t (fun r => r.day_of_week)
    · rw [if_pos hm] at hv
      exact (Option.some_injective _ hv).symm
    · rw [if_neg hm] at hv
      exact absurd hv (Option.some_ne_none v).symm.elim

/-- Counterexample for C1 as stated: on a table with only Monday and
Wednesday rows, the day-of-week aggregation does not return the two
entries `[Monday, Wednesday]`; it returns all seven weekdays, with a
`NaN` (`none`) entry for the absent Tuesday. -/
theorem daily_sales_not_omitting :
    ¬ ((daily_sales exMonWed).map Prod.fst = ["Monday", "Wednesday"]) ∧
    ("Tuesday", (none : Option Rat)) ∈ daily_sales exMonWed := by
  refine ⟨by decide, by decide⟩

/-- Witness for C1's amended statement at the Monday/Wednesday table and
the `NaN`-filled Tuesday entry. -/
theorem daily_sales_reindexed_witness :
    ((daily_sales exMonWed).map Prod.fst = day_of_week_order) ∧
    ((("Tuesday", (none : Option Rat)) : String × Option Rat).2.isSome ↔
      ("Tuesday" : String) ∈ exMonWed.map (fun r => r.day_of_week)) :=
  ⟨(daily_sales_reindexed exMonWed).1,
   (daily_sales_reindexed exMonWed).2.1 ("Tuesday", none) (by decide)⟩

/-- A left fold of `Nat.min` bounds every element of `i :: is` below. -/
theorem foldl_min_le : ∀ (is : List Nat) (i : Nat), ∀ x ∈ i :: is, is.foldl Nat.min i ≤ x := by
  intro is
  induction is with
  | nil =>
    intro i x hx
    rw [List.mem_singleton] at hx
    subst hx
    exact le_rfl
  | cons j is ih =>
    intro i x hx
    have hself : is.foldl Nat.min (Nat.min i j) ≤ Nat.min i j :=
      ih (Nat.min i j) (Nat.min i j) (List.mem_cons_self _ _)
    rcases List.mem_cons.mp hx with rfl | hx'
    · exact le_trans hself (Nat.min_le_left _ _)
    rcases List.mem_cons.mp hx' with rfl | hx''
    · exact le_trans hself (Nat.min_le_right _ _)
    · exact ih (Nat.min i j) x (List.mem_cons_of_mem _ hx'')

/-- A left fold of `Nat.max` bounds every element of `i :: is` above. -/
theorem le_foldl_max : ∀ (is : List Nat) (i : Nat), ∀ x ∈ i :: is, x ≤ is.foldl Nat.max i := by
  intro is
  induction is with
  | nil =>
    intro i x hx
    rw [List.mem_singleton] at hx
    subst hx
    exact le_rfl
  | cons j is ih =>
    intro i x hx
    have hself : Nat.max i j ≤ is.foldl Nat.max (Nat.max i j) :=
      ih (Nat.max i j) (Nat.max i j) (List.mem_cons_self _ _)
    rcases List.mem_cons.mp hx with rfl | hx'
    · exact le_trans (Nat.le_max_left _ _) hself
    rcases List.mem_cons.mp hx' with rfl | hx''
    · exact le_trans (Nat.le_max_right _ _) hself
    · exact ih (Nat.max i j) x (List.mem_cons_of_mem _ hx'')

/-- `List.range'` with step 1 is a chain of successive numbers. -/
theorem chain_range' : ∀ (n s : Nat), List.Chain' (fun a b => b = a + 1) (List.range' s n) := by
  intro n
  induction n with
  | zero => intro s; simp
  | succ m ih =>
    intro s
    rw [List.range'_succ]
    cases m with
    | zero => simp
    | succ k =>
      rw [List.range'_succ]
      refine List.Chain'.cons rfl ?_
      rw [← List.range'_succ]
      exact ih (s + 1)

/-- C2 (corrected): the monthly trend buckets rows by calendar month of
`posting_date` and sums the metric per bucket, producing a
chronologically consecutive sequence of month buckets from the earliest
to the latest month present — months with zero rows included with sum
`0` (`resample` gap-fills) — with one entry per bucket, each equal to
that month's sum, and every month present in the data has its entry;
the empty table yields the empty sequence. -/
theorem monthly_sales_resample (t : List Row) :
    (t = [] → monthly_sales t = []) ∧
    (∀ r ∈ t, monthIndex r.posting_date ∈ (monthly_sales t).map Prod.fst) ∧
    List.Chain' (fun a b => b = a + 1) ((monthly_sales t).map Prod.fst) ∧
    (∀ p ∈ monthly_sales t, p.2 = monthSum t p.1) := by
  cases t with
  | nil =>
    refine ⟨fun _ => rfl, ?_, ?_, ?_⟩
    · intro r hr; exact absurd hr (List.not_mem_nil r)
    · exact trivial
    · intro p hp; exact absurd hp (List.not_mem_nil p)
  | cons r0 ts =>
    have hms : monthly_sales (r0 :: ts) =
        (List.range'
          ((ts.map (fun r => monthIndex r.posting_date)).foldl Nat.min
            (monthIndex r0.posting_date))
          (((ts.map (fun r => monthIndex r.posting_date)).foldl Nat.max
            (monthIndex r0.posting_date)) + 1 -
            ((ts.map (fun r => monthIndex r.posting_date)).foldl Nat.min
              (monthIndex r0.posting_date)))).map
          (fun m => (m, monthSum (r0 :: ts) m)) := rfl
    set is := ts.map (fun r => monthIndex r.posting_date) with his
    set i := monthIndex r0.posting_date with hi
    set lo := is.foldl Nat.min i with hlo
    set hi' := is.foldl Nat.max i with hhi
    have hkeys : (monthly_sales (r0 :: ts)).map Prod.fst =
        List.range' lo (hi' + 1 - lo) := by
      rw [hms, List.map_map]
      exact List.map_id _
    refine ⟨fun h => absurd h (by simp), ?_, ?_, ?_⟩
    · intro r hr
      have hmem : monthIndex r.posting_date ∈ i :: is := by
        rcases List.mem_cons.mp hr with rfl | hr'
        · exact List.mem_cons_self _ _
        · exact List.mem_cons_of_mem _ (List.mem_map_of_mem _ hr')
      have h1 : lo ≤ monthIndex r.posting_date := foldl_min_le is i _ hmem
      have h2 : monthIndex r.posting_date ≤ hi' := le_foldl_max is i _ hmem
      have hlohi : lo ≤ hi' := le_trans (foldl_min_le is i i (List.mem_cons_self _ _))
        (le_foldl_max is i i (List.mem_cons_self _ _))
      rw [hkeys, List.mem_range'_1]
      omega
    · rw [hkeys]; exact chain_range' _ _
    · intro p hp
      rw [hms, List.mem_map] at hp
      obtain ⟨m, _, rfl⟩ := hp
      rfl

/-- Counterexample for C2 as stated: a table with rows only in January
and March 2024 produces three month buckets, including one (February)
containing no rows — the sequence is gap-filled, not restricted to the
months present. -/
theorem monthly_sales_gapfills :
    (monthly_sales exJanMar).length = 3 ∧
    ∃ p ∈ monthly_sales exJanMar, ∀ r ∈ exJanMar, monthIndex r.posting_date ≠ p.1 := by
  refine ⟨by decide, by decide⟩

/-- Witness for C2's amended statement at the January/March table. -/
theorem monthly_sales_resample_witness :
    monthIndex rowJan.posting_date ∈ (monthly_sales exJanMar).map Prod.fst ∧
    List.Chain' (fun a b => b = a + 1) ((monthly_sales exJanMar).map Prod.fst) :=
  ⟨(monthly_sales_resample exJanMar).2.1 rowJan (by decide),
   (monthly_sales_resample exJanMar).2.2.1⟩

/-- A two-element sublist splits the ambient list into three segments. -/
theorem pair_sublist_decomp {α : Type} {a b : α} :
    ∀ {l : List α}, List.Sublist [a, b] l → ∃ s1 s2 s3, l = s1 ++ a :: (s2 ++ b :: s3) := by
  intro l h
  induction l with
  | nil => cases h
  | cons c l ih =>
    cases h with
    | cons _ h' =>
      obtain ⟨s1, s2, s3, rfl⟩ := ih h'
      exact ⟨c :: s1, s2, s3, rfl⟩
    | cons₂ _ h' =>
      obtain ⟨u, v, rfl⟩ := List.append_of_mem (List.singleton_sublist.mp h')
      exact ⟨[], u, v, rfl⟩

/-- In a duplicate-free list split around an in-order pair, if the later
element of the pair lies in the `n`-prefix, so does the earlier one. -/
theorem take_stable {α : Type} {s1 s2 s3 : List α} {a b : α}
    (hnd : (s1 ++ a :: (s2 ++ b :: s3)).Nodup) {n : Nat}
    (hb : b ∈ (s1 ++ a :: (s2 ++ b :: s3)).take n) :
    a ∈ (s1 ++ a :: (s2 ++ b :: s3)).take n := by
  rw [List.take_append_eq_append_take] at hb ⊢
  by_cases hn : n ≤ s1.length
  · exfalso
    have h0 : n - s1.length = 0 := Nat.sub_eq_zero_of_le hn
    rw [h0] at hb
    simp only [List.take_zero, List.append_nil] at hb
    have hbs1 : b ∈ s1 := List.take_subset n s1 hb
    have hsplit := List.nodup_append.mp hnd
    exact hsplit.2.2 hbs1 (by simp)
  · push_neg at hn
    apply List.mem_append_right
    obtain ⟨m, hm⟩ : ∃ m, n - s1.length = m + 1 := ⟨n - s1.length - 1, by omega⟩
    rw [hm, List.take_succ_cons]
    exact List.mem_cons_self _ _

/-- A groupby result has pairwise-distinct entries (its keys are the
sorted deduplicated key values). -/
theorem nodup_groupAgg (t : List Row) (key : Row → String) (metric : Row → Rat)
    (red : Reducer) : (groupAgg t key metric red).Nodup := by
  apply List.Nodup.map
  · intro k1 k2 h
    exact congrArg Prod.fst h
  · exact ((List.perm_insertionSort _ _).nodup_iff).mpr (List.nodup_dedup _)

/-- The keys of a groupby result are exactly the sorted distinct group
keys. -/
theorem map_fst_groupAgg (t : List Row) (key : Row → String) (metric : Row → Rat)
    (red : Reducer) : (groupAgg t key metric red).map Prod.fst = groupKeys t key := by
  unfold groupAgg
  rw [List.map_map]
  exact List.map_id _

/-- C7: aggregation with `topN = n` (the `nlargest(n)` of
`product_sales` and `top_customers`) returns at most `n` entries, every
returned entry's reduced value is at least every omitted group's reduced
value, and ties are broken stably: if two groups with equal sums appear
in the groupby sequence in a given order and the later one is returned,
the earlier one is returned as well. -/
theorem topn_correct (t : List Row) (key : Row → String) (metric : Row → Rat)
    (red : Reducer) (n : Nat) (hn : 0 < n) :
    (aggregate t key metric red (some n)).length ≤ n ∧
    (∀ p ∈ aggregate t key metric red (some n),
      ∀ q ∈ groupAgg t key metric red,
        q ∉ aggregate t key metric red (some n) → q.2 ≤ p.2) ∧
    (∀ (a b : String × Rat) (l1 l2 l3 : List (String × Rat)),
      groupAgg t key metric red = l1 ++ a :: (l2 ++ b :: l3) → a.2 = b.2 →
      b ∈ aggregate t key metric red (some n) →
      a ∈ aggregate t key metric red (some n)) := by
  haveI hTot : IsTotal (String × Rat) (fun p q => q.2 ≤ p.2) :=
    ⟨fun p q => le_total q.2 p.2⟩
  haveI hTr : IsTrans (String × Rat) (fun p q => q.2 ≤ p.2) :=
    ⟨fun p q c h1 h2 => le_trans h2 h1⟩
  have hagg : aggregate t key metric red (some n) =
      (List.insertionSort (fun p q => q.2 ≤ p.2) (groupAgg t key metric red)).take n := rfl
  have hsort : (List.insertionSort (fun p q => q.2 ≤ p.2)
      (groupAgg t key metric red)).Pairwise (fun p q => q.2 ≤ p.2) :=
    List.sorted_insertionSort _ (groupAgg t key metric red)
  refine ⟨?_, ?_, ?_⟩
  · rw [hagg]
    exact List.length_take_le n _
  · intro p hp q hq hnq
    rw [hagg] at hp hnq
    have hqsorted : q ∈ List.insertionSort (fun p q => q.2 ≤ p.2) (groupAgg t key metric red) :=
      (List.mem_insertionSort _).mpr hq
    have hqdrop : q ∈ (List.insertionSort (fun p q => q.2 ≤ p.2)
        (groupAgg t key metric red)).drop n := by
      have hsplit := List.take_append_drop n
        (List.insertionSort (fun p q => q.2 ≤ p.2) (groupAgg t key metric red))
      rcases List.mem_append.mp (by rw [hsplit]; exact hqsorted) with h | h
      · exact absurd h hnq
      · exact h
    have hcross := hsort
    rw [← List.take_append_drop n (List.insertionSort (fun p q => q.2 ≤ p.2)
      (groupAgg t key metric red)), List.pairwise_append] at hcross
    exact hcross.2.2 p hp q hqdrop
  · intro a b l1 l2 l3 hdec hv hb
    rw [hagg] at hb ⊢
    have hpair : List.Sublist [a, b] (groupAgg t key metric red) := by
      rw [hdec]
      refine List.Sublist.trans ?_ (List.sublist_append_right l1 _)
      exact List.Sublist.cons₂ a (List.singleton_sublist.mpr (by simp))
    have hpair' : List.Sublist [a, b] (List.insertionSort (fun p q => q.2 ≤ p.2)
        (groupAgg t key metric red)) :=
      List.pair_sublist_insertionSort (le_of_eq hv.symm) hpair
    obtain ⟨s1, s2, s3, hsdec⟩ := pair_sublist_decomp hpair'
    have hnd : (List.insertionSort (fun p q => q.2 ≤ p.2)
        (groupAgg t key metric red)).Nodup :=
      ((List.perm_insertionSort _ _).nodup_iff).mpr (nodup_groupAgg t key metric red)
    rw [hsdec] at hb ⊢
    exact take_stable (hsdec ▸ hnd) hb

/-- Witness for C7 on the four-group tied table with `n = 2`: at most two
entries come back, and the tie between the equal-sum groups B and D is
broken in favor of B, the earlier group in the groupby sequence. -/
theorem topn_correct_witness :
    (aggregate exTies (fun r => r.product_group) (fun r => r.final_line_amount)
      .rsum (some 2)).length ≤ 2 ∧
    ("B", (7 : Rat)) ∈ aggregate exTies (fun r => r.product_group)
      (fun r => r.final_line_amount) .rsum (some 2) := by
  have hgs : groupbySum exTies (fun r => r.product_group) (fun r => r.final_line_amount) =
      [("A", (5 : Rat))] ++ ("B", (7 : Rat)) :: ([("C", (5 : Rat))] ++ ("D", (7 : Rat)) :: []) := by
    with_unfolding_all rfl
  have hres : aggregate exTies (fun r => r.product_group) (fun r => r.final_line_amount)
      .rsum (some 2) = [("B", (7 : Rat)), ("D", (7 : Rat))] := by
    with_unfolding_all rfl
  refine ⟨(topn_correct exTies (fun r => r.product_group) (fun r => r.final_line_amount)
    .rsum 2 (by decide)).1, ?_⟩
  refine (topn_correct exTies (fun r => r.product_group) (fun r => r.final_line_amount)
    .rsum 2 (by decide)).2.2 ("B", 7) ("D", 7) [("A", 5)] [("C", 5)] [] hgs rfl ?_
  rw [hres]
  simp

/-- C8: on any table whose quarter labels are canonical, quarter
aggregation returns exactly the quarters present in the table, in the
canonical order `Q1, Q2, Q3, Q4`, with absent quarters omitted. -/
theorem quarterly_canonical (t : List Row)
    (hq : ∀ r ∈ t, r.quarter ∈ quarter_order) :
    (quarterly_sales t).map Prod.fst =
      quarter_order.filter (fun q => q ∈ t.map (fun r => r.quarter)) := by
  haveI hTot : IsTotal (String × Rat) (fun a b => quarterIdx a.1 ≤ quarterIdx b.1) :=
    ⟨fun a b => Nat.le_total _ _⟩
  haveI hTr : IsTrans (String × Rat) (fun a b => quarterIdx a.1 ≤ quarterIdx b.1) :=
    ⟨fun a b c => Nat.le_trans⟩
  haveI hAnti : IsAntisymm String (fun x y => quarterIdx x < quarterIdx y) :=
    ⟨fun x y h1 h2 => absurd (Nat.lt_trans h1 h2) (Nat.lt_irrefl _)⟩
  have htargetnd : (quarter_order.filter
      (fun q => q ∈ t.map (fun r => r.quarter))).Nodup :=
    List.Nodup.filter _ (by decide)
  have h1 : List.Perm ((quarterly_sales t).map Prod.fst)
      ((groupbySum t (fun r => r.quarter) (fun r => r.final_line_amount)).map Prod.fst) :=
    (List.perm_insertionSort _ _).map Prod.fst
  have h2 : (groupbySum t (fun r => r.quarter) (fun r => r.final_line_amount)).map Prod.fst =
      groupKeys t (fun r => r.quarter) :=
    map_fst_groupAgg t _ _ .rsum
  have h3 : List.Perm (groupKeys t (fun r => r.quarter)) ((t.map (fun r => r.quarter)).dedup) :=
    List.perm_insertionSort _ _
  have h4 : List.Perm ((t.map (fun r => r.quarter)).dedup)
      (quarter_order.filter (fun q => q ∈ t.map (fun r => r.quarter))) := by
    rw [List.perm_ext_iff_of_nodup (List.nodup_dedup _) htargetnd]
    intro x
    rw [List.mem_dedup, List.mem_filter]
    constructor
    · intro hx
      refine ⟨?_, by simpa using hx⟩
      rw [List.mem_map] at hx
      obtain ⟨r, hr, rfl⟩ := hx
      exact hq r hr
    · intro hx
      simpa using hx.2
  have hperm : List.Perm ((quarterly_sales t).map Prod.fst)
      (quarter_order.filter (fun q => q ∈ t.map (fun r => r.quarter))) :=
    h1.trans ((h2 ▸ h3 : List.Perm ((groupbySum t (fun r => r.quarter)
      (fun r => r.final_line_amount)).map Prod.fst)
      ((t.map (fun r => r.quarter)).dedup)).trans h4)
  have hsq : (List.insertionSort (fun a b => quarterIdx a.1 ≤ quarterIdx b.1)
      (groupbySum t (fun r => r.quarter) (fun r => r.final_line_amount))).Pairwise
      (fun a b => quarterIdx a.1 ≤ quarterIdx b.1) :=
    List.sorted_insertionSort _ _
  have hkeysle : ((quarterly_sales t).map Prod.fst).Pairwise
      (fun x y => quarterIdx x ≤ quarterIdx y) :=
    List.pairwise_map.mpr hsq
  have hkeysnd : ((quarterly_sales t).map Prod.fst).Nodup :=
    hperm.nodup_iff.mpr htargetnd
  have hsubq : ∀ x ∈ (quarterly_sales t).map Prod.fst, x ∈ quarter_order :=
    fun x hx => (List.mem_filter.mp (hperm.mem_iff.mp hx)).1
  have hkeyslt : ((quarterly_sales t).map Prod.fst).Pairwise
      (fun x y => quarterIdx x < quarterIdx y) := by
    refine List.Pairwise.imp_of_mem ?_ (hkeysle.and hkeysnd)
    intro a b ha hb hab
    refine lt_of_le_of_ne hab.1 (fun he => hab.2 ?_)
    exact (List.indexOf_inj (hsubq a ha) (hsubq b hb)).mp he
  have hstarget : (quarter_order.filter
      (fun q => q ∈ t.map (fun r => r.quarter))).Pairwise
      (fun x y => quarterIdx x < quarterIdx y) :=
    List.Pairwise.filter _ (by decide)
  exact List.eq_of_perm_of_sorted hperm hkeyslt hstarget

/-- Witness for C8: a table with only Q3 and Q1 rows yields the keys
`[Q1, Q3]` — canonical order, gaps omitted. -/
theorem quarterly_canonical_witness :
    (quarterly_sales exQuarters).map Prod.fst =
      quarter_order.filter (fun q => q ∈ exQuarters.map (fun r => r.quarter)) ∧
    (quarterly_sales exQuarters).map Prod.fst = ["Q1", "Q3"] := by
  have h := quarterly_canonical exQuarters (by decide)
  exact ⟨h, h.trans (by decide)⟩

end SalesRegister
